import Mathlib

/-
  Shallow embedding of the core of src/app.py (the Buffett market scanner):
  the per-symbol analysis function analyze_stock, and the batch scan loop
  with its final sort.  Numeric dict values are modelled as rationals;
  a dict field is an Option PyVal (absent, or present holding null / a
  number).  Operations that raise a Python TypeError (comparing None with a
  number) are modelled in the Except monad; the try/except wrapper of
  analyze_stock collapses every error to the no-result value None.
-/

namespace BuffettScanner

/-- A Python value stored in the info dict: None, or a number (modelled as ℚ). -/
inductive PyVal where
  | none
  | num (q : ℚ)
deriving DecidableEq

/-- Python exceptions relevant to the embedded code. -/
inductive PyErr where
  | typeError
  | providerError
deriving DecidableEq

/-- Python truthiness of a value: None and 0 are falsy, any other number truthy. -/
def PyVal.truthy : PyVal → Bool
  | PyVal.none => false
  | PyVal.num q => decide (q ≠ 0)

/-- Python `a or b` on two values. -/
def pyOr (a b : PyVal) : PyVal :=
  if a.truthy then a else b

/-- The yfinance info mapping restricted to the fields the code reads.
Each field is absent (`Option.none`), or present holding null or a number. -/
structure Info where
  currentPrice : Option PyVal := Option.none
  regularMarketPrice : Option PyVal := Option.none
  trailingEps : Option PyVal := Option.none
  returnOnEquity : Option PyVal := Option.none
  debtToEquity : Option PyVal := Option.none
  operatingMargins : Option PyVal := Option.none
  earningsGrowth : Option PyVal := Option.none
deriving DecidableEq

/-- Python `(info.get(k, d) or d)` for a numeric literal default d, as used on
lines 60-62 and 67 of app.py.  The result is always a number: the fallback
branch for None is unreachable because the right operand of the `or` is the
numeric default, but it is kept to mirror the expression shape. -/
def orQ (v : Option PyVal) (d : ℚ) : ℚ :=
  match pyOr (v.getD (PyVal.num d)) (PyVal.num d) with
  | PyVal.num q => q
  | PyVal.none => d

/-- Line 59: `current_price = info.get('currentPrice') or info.get('regularMarketPrice', 0)`.
The first get defaults to None; the result may still be None when
regularMarketPrice is present but null. -/
def current_price (info : Info) : PyVal :=
  pyOr (info.currentPrice.getD PyVal.none) (info.regularMarketPrice.getD (PyVal.num 0))

/-- Line 60: `roe = (info.get('returnOnEquity', 0) or 0) * 100`. -/
def roe (info : Info) : ℚ :=
  orQ info.returnOnEquity 0 * 100

/-- Line 61: `debt_to_equity = (info.get('debtToEquity', 0) or 0) / 100`. -/
def debt_to_equity (info : Info) : ℚ :=
  orQ info.debtToEquity 0 / 100

/-- Line 62: `op_margin = (info.get('operatingMargins', 0) or 0) * 100`. -/
def op_margin (info : Info) : ℚ :=
  orQ info.operatingMargins 0 * 100

/-- Line 63: `eps = info.get('trailingEps', 0)`.  Note: unlike the other
fields there is no `or` guard, so a present-but-null field leaves eps as None. -/
def eps (info : Info) : PyVal :=
  info.trailingEps.getD (PyVal.num 0)

/-- Line 67: `growth_estimate = (info.get('earningsGrowth', 0.05) or 0.05) * 100`. -/
def growth_estimate (info : Info) : ℚ :=
  orQ info.earningsGrowth (1/20) * 100

/-- Lines 68-69: growth capped into [0, 15] by min then max. -/
def capped_growth (info : Info) : ℚ :=
  max (min (growth_estimate info) 15) 0

/-- Lines 71-73: Graham-style intrinsic value from a numeric eps e and the
capped growth g; 0 unless eps is strictly positive. -/
def intrinsic_value (e g : ℚ) : ℚ :=
  if e > 0 then e * (17/2 + 2 * g) else 0

/-- Line 79: criterion A, undervalued. -/
def is_cheap (cp iv : ℚ) : Prop :=
  cp < iv ∧ iv > 0

instance (cp iv : ℚ) : Decidable (is_cheap cp iv) := by
  unfold is_cheap
  infer_instance

/-- Line 83: criterion B, high return on equity. -/
def is_efficient (r : ℚ) : Prop :=
  r > 15

instance (r : ℚ) : Decidable (is_efficient r) := by
  unfold is_efficient
  infer_instance

/-- Line 87: criterion C, low debt. -/
def is_safe (d : ℚ) : Prop :=
  d < 1/2

instance (d : ℚ) : Decidable (is_safe d) := by
  unfold is_safe
  infer_instance

/-- Line 91: criterion D, moat via high operating margin. -/
def is_moat (m : ℚ) : Prop :=
  m > 20

instance (m : ℚ) : Decidable (is_moat m) := by
  unfold is_moat
  infer_instance

/-- Lines 76-92: each passing criterion adds one point to the score. -/
def scoreOf (cp iv r d m : ℚ) : ℕ :=
  (if is_cheap cp iv then 1 else 0) +
  (if is_efficient r then 1 else 0) +
  (if is_safe d then 1 else 0) +
  (if is_moat m then 1 else 0)

/-- Lines 94-98: recommendation label from the score, with default Avoid. -/
def recommendationOf (score : ℕ) : String :=
  if score = 4 then "Strong Buy"
  else if score = 3 then "Buy"
  else if score = 2 then "Watch"
  else "Avoid"

/-- Python round half-to-even of a rational to an integer. -/
def roundHalfEven (x : ℚ) : ℤ :=
  let f : ℤ := Int.floor x
  let r : ℚ := x - f
  if r < 1/2 then f
  else if r > 1/2 then f + 1
  else if f % 2 = 0 then f else f + 1

/-- Python `round(x, n)` on an exact rational. -/
def pyRound (x : ℚ) (n : ℕ) : ℚ :=
  (roundHalfEven (x * 10 ^ n) : ℚ) / 10 ^ n

/-- The result dict built on lines 100-110 of app.py, one per scored symbol. -/
structure Record where
  symbol : String
  price : ℚ
  intrinsicValue : ℚ
  upside : ℚ
  score : ℕ
  recommendation : String
  roePct : ℚ
  debtEq : ℚ
  opMarginPct : ℚ
deriving DecidableEq

/-- The body of analyze_stock after a successful fetch (lines 55-110).
`Except.ok Option.none` is the early `return None` of line 56; the check
`not info or 'regularMarketPrice' not in info` reduces to the membership
test, since an empty dict lacks the field.  A None eps raises at the
comparison `eps > 0` (line 72), a None current_price raises at the
comparison of line 79; both surface here as typeError. -/
def analyzeBody (ticker : String) (info : Info) : Except PyErr (Option Record) :=
  if info.regularMarketPrice = Option.none then Except.ok Option.none
  else
    match eps info with
    | PyVal.none => Except.error PyErr.typeError
    | PyVal.num e =>
      match current_price info with
      | PyVal.none => Except.error PyErr.typeError
      | PyVal.num cp =>
        let iv : ℚ := intrinsic_value e (capped_growth info)
        let sc : ℕ := scoreOf cp iv (roe info) (debt_to_equity info) (op_margin info)
        Except.ok (Option.some {
          symbol := ticker.replace ".NS" ""
          price := pyRound cp 2
          intrinsicValue := pyRound iv 2
          upside := if cp = 0 then 0 else pyRound ((iv - cp) / cp * 100) 1
          score := sc
          recommendation := recommendationOf sc
          roePct := pyRound (roe info) 1
          debtEq := pyRound (debt_to_equity info) 2
          opMarginPct := pyRound (op_margin info) 1 })

/-- Lines 50-113: analyze_stock with its enclosing try/except.  The fetch
(yf.Ticker plus .info) is abstracted as a function that may raise; any
exception from fetch or from the body yields None. -/
def analyze_stock (fetch : String → Except PyErr Info) (ticker : String) : Option Record :=
  match fetch ticker with
  | Except.error _ => Option.none
  | Except.ok info =>
    match analyzeBody ticker info with
    | Except.error _ => Option.none
    | Except.ok r => r

/-- Lines 127-131: the scan loop appends the result dict of each symbol for
which analyze_stock returned data, in input order. -/
def scanResults (fetch : String → Except PyErr Info) (tickers : List String) : List Record :=
  tickers.filterMap (analyze_stock fetch)

/-- Strict precedence in the report order: a comes strictly before b when a
has the higher score, or equal scores and the higher upside. -/
def precStrict (a b : Record) : Prop :=
  b.score < a.score ∨ (a.score = b.score ∧ b.upside < a.upside)

instance (a b : Record) : Decidable (precStrict a b) := by
  unfold precStrict
  infer_instance

/-- Non-strict report order: score descending, then upside descending. -/
def keyLE (a b : Record) : Prop :=
  b.score < a.score ∨ (a.score = b.score ∧ b.upside ≤ a.upside)

/-- Stable insertion of a record into an already sorted list: x passes over
exactly the records that strictly precede it, so ties keep the earlier
record first. -/
def insertRec (x : Record) : List Record → List Record
  | [] => [x]
  | y :: ys => if precStrict y x then y :: insertRec x ys else x :: y :: ys

/-- Line 144: `df.sort_values(by=["Score", "Upside (%)"], ascending=[False, False])`.
A multi-column pandas sort_values is a stable lexicographic sort (numpy
lexsort); modelled as a stable insertion sort on the collected records. -/
def sortReport (l : List Record) : List Record :=
  l.foldr insertRec []

/-- Lines 127-144: the full report, scan results sorted for display. -/
def report (fetch : String → Except PyErr Info) (tickers : List String) : List Record :=
  sortReport (scanResults fetch tickers)

/-- The same-key predicate used to state stability of the report sort. -/
def sameKey (s : ℕ) (u : ℚ) : Record → Bool :=
  fun r => decide (r.score = s ∧ r.upside = u)

/-- A minimal info mapping: only the required price field, numeric. -/
def infoA : Info := { regularMarketPrice := Option.some (PyVal.num 10) }

/-- The record analyze_stock produces for infoA under ticker X. -/
def recA : Record :=
  { symbol := "X".replace ".NS" "", price := 10, intrinsicValue := 0, upside := -100,
    score := 1, recommendation := "Avoid", roePct := 0, debtEq := 0, opMarginPct := 0 }

/-- An info mapping that scores one point through efficiency instead of safety. -/
def infoB : Info :=
  { regularMarketPrice := Option.some (PyVal.num 20),
    returnOnEquity := Option.some (PyVal.num (1/5)),
    debtToEquity := Option.some (PyVal.num 100) }

/-- The record analyze_stock produces for infoB under ticker Y. -/
def recB : Record :=
  { symbol := "Y".replace ".NS" "", price := 20, intrinsicValue := 0, upside := -100,
    score := 1, recommendation := "Avoid", roePct := 20, debtEq := 1, opMarginPct := 0 }

/-- An info mapping whose earnings-growth field is present with the value 0. -/
def infoG0 : Info :=
  { regularMarketPrice := Option.some (PyVal.num 10),
    earningsGrowth := Option.some (PyVal.num 0) }

/-- An info mapping whose current-price field is present with the value 0. -/
def infoCP0 : Info :=
  { currentPrice := Option.some (PyVal.num 0),
    regularMarketPrice := Option.some (PyVal.num 7) }

/-- An info mapping whose trailing-EPS field is present but null. -/
def infoNullEps : Info :=
  { regularMarketPrice := Option.some (PyVal.num 10),
    trailingEps := Option.some PyVal.none }

lemma roundHalfEven_intCast (m : ℤ) : roundHalfEven (m : ℚ) = m := by
  unfold roundHalfEven
  rw [Int.floor_intCast]
  simp

lemma pyRound_eq_of_int (x : ℚ) (k : ℕ) (m : ℤ) (h : x * 10 ^ k = (m : ℚ)) :
    pyRound x k = (m : ℚ) / 10 ^ k := by
  unfold pyRound
  rw [h, roundHalfEven_intCast]

lemma eps_infoA : eps infoA = PyVal.num 0 := rfl

lemma cp_infoA : current_price infoA = PyVal.num 10 := rfl

lemma roe_infoA : roe infoA = 0 := by
  norm_num [roe, orQ, pyOr, PyVal.truthy, infoA]

lemma analyzeBody_infoA : analyzeBody "X" infoA = Except.ok (Option.some recA) := by
  have hde : debt_to_equity infoA = 0 := by
    norm_num [debt_to_equity, orQ, pyOr, PyVal.truthy, infoA]
  have hom : op_margin infoA = 0 := by
    norm_num [op_margin, orQ, pyOr, PyVal.truthy, infoA]
  have hiv : intrinsic_value 0 (capped_growth infoA) = 0 := by
    norm_num [intrinsic_value]
  have hsc : scoreOf 10 0 0 0 0 = 1 := by
    norm_num [scoreOf, is_cheap, is_efficient, is_safe, is_moat]
  simp only [analyzeBody, eps_infoA, cp_infoA, hiv, roe_infoA, hde, hom, hsc]
  norm_num [infoA, recA, recommendationOf, Record.mk.injEq,
    pyRound_eq_of_int 10 2 1000 (by norm_num),
    pyRound_eq_of_int 0 2 0 (by norm_num),
    pyRound_eq_of_int 0 1 0 (by norm_num),
    pyRound_eq_of_int (-100) 1 (-1000) (by norm_num)]
  intro h
  exact absurd h (by simp)

lemma eps_infoB : eps infoB = PyVal.num 0 := rfl

lemma cp_infoB : current_price infoB = PyVal.num 20 := rfl

lemma roe_infoB : roe infoB = 20 := by
  norm_num [roe, orQ, pyOr, PyVal.truthy, infoB]

lemma analyzeBody_infoB : analyzeBody "Y" infoB = Except.ok (Option.some recB) := by
  have hde : debt_to_equity infoB = 1 := by
    norm_num [debt_to_equity, orQ, pyOr, PyVal.truthy, infoB]
  have hom : op_margin infoB = 0 := by
    norm_num [op_margin, orQ, pyOr, PyVal.truthy, infoB]
  have hiv : intrinsic_value 0 (capped_growth infoB) = 0 := by
    norm_num [intrinsic_value]
  have hsc : scoreOf 20 0 20 1 0 = 1 := by
    norm_num [scoreOf, is_cheap, is_efficient, is_safe, is_moat]
  simp only [analyzeBody, eps_infoB, cp_infoB, hiv, roe_infoB, hde, hom, hsc]
  norm_num [infoB, recB, recommendationOf, Record.mk.injEq,
    pyRound_eq_of_int 20 2 2000 (by norm_num),
    pyRound_eq_of_int 0 2 0 (by norm_num),
    pyRound_eq_of_int 0 1 0 (by norm_num),
    pyRound_eq_of_int 20 1 200 (by norm_num),
    pyRound_eq_of_int 1 2 100 (by norm_num),
    pyRound_eq_of_int (-100) 1 (-1000) (by norm_num)]
  intro h
  exact absurd h (by simp)

lemma analyzeBody_infoNullEps :
    analyzeBody "X" infoNullEps = Except.error PyErr.typeError := by
  simp [analyzeBody, eps, infoNullEps]

lemma insertRec_perm (x : Record) (l : List Record) :
    List.Perm (insertRec x l) (x :: l) := by
  induction l with
  | nil => exact List.Perm.refl _
  | cons y ys ih =>
    unfold insertRec
    by_cases h : precStrict y x
    · rw [if_pos h]
      exact (ih.cons y).trans (List.Perm.swap x y ys)
    · rw [if_neg h]

lemma sortReport_perm (l : List Record) : List.Perm (sortReport l) l := by
  induction l with
  | nil => exact List.Perm.refl _
  | cons x xs ih =>
    exact (insertRec_perm x (sortReport xs)).trans (ih.cons x)

lemma precStrict_keyLE {a b : Record} (h : precStrict a b) : keyLE a b := by
  rcases h with h | ⟨hs, hu⟩
  · exact Or.inl h
  · exact Or.inr ⟨hs, le_of_lt hu⟩

lemma keyLE_of_not_precStrict {a b : Record} (h : ¬ precStrict a b) : keyLE b a := by
  unfold precStrict at h
  push_neg at h
  obtain ⟨h1, h2⟩ := h
  rcases eq_or_lt_of_le h1 with heq | hlt
  · exact Or.inr ⟨heq.symm, h2 heq⟩
  · exact Or.inl hlt

lemma keyLE_trans {a b c : Record} (h1 : keyLE a b) (h2 : keyLE b c) : keyLE a c := by
  rcases h1 with h1 | ⟨e1, u1⟩ <;> rcases h2 with h2 | ⟨e2, u2⟩
  · exact Or.inl (lt_trans h2 h1)
  · exact Or.inl (e2 ▸ h1)
  · exact Or.inl (e1 ▸ h2)
  · exact Or.inr ⟨e1.trans e2, le_trans u2 u1⟩

lemma mem_insertRec {x z : Record} {l : List Record} (h : z ∈ insertRec x l) :
    z = x ∨ z ∈ l := by
  have := (insertRec_perm x l).mem_iff.mp h
  simpa using this

lemma pairwise_insertRec (x : Record) {l : List Record} (h : List.Pairwise keyLE l) :
    List.Pairwise keyLE (insertRec x l) := by
  induction l with
  | nil => simp [insertRec]
  | cons y ys ih =>
    obtain ⟨hy, hys⟩ := List.pairwise_cons.mp h
    unfold insertRec
    by_cases hp : precStrict y x
    · rw [if_pos hp]
      refine List.pairwise_cons.mpr ⟨?_, ih hys⟩
      intro z hz
      rcases mem_insertRec hz with rfl | hzys
      · exact precStrict_keyLE hp
      · exact hy z hzys
    · rw [if_neg hp]
      refine List.pairwise_cons.mpr ⟨?_, h⟩
      intro z hz
      rcases List.mem_cons.mp hz with rfl | hzys
      · exact keyLE_of_not_precStrict hp
      · exact keyLE_trans (keyLE_of_not_precStrict hp) (hy z hzys)

lemma sortReport_pairwise (l : List Record) : List.Pairwise keyLE (sortReport l) := by
  induction l with
  | nil => exact List.Pairwise.nil
  | cons x xs ih => exact pairwise_insertRec x ih

lemma filter_insertRec_pos (p : Record → Bool) (x : Record) (l : List Record)
    (hx : p x = true) (hcl : ∀ z ∈ l, p z = true → ¬ precStrict z x) :
    (insertRec x l).filter p = x :: l.filter p := by
  induction l with
  | nil => simp [insertRec, hx]
  | cons y ys ih =>
    unfold insertRec
    by_cases hp : precStrict y x
    · rw [if_pos hp]
      have hpy : p y = false := by
        cases hpy : p y
        · rfl
        · exact absurd hp (hcl y (List.mem_cons_self y ys) hpy)
      rw [List.filter_cons_of_neg (by simp [hpy]), List.filter_cons_of_neg (by simp [hpy])]
      exact ih (fun z hz hpz => hcl z (List.mem_cons_of_mem y hz) hpz)
    · rw [if_neg hp]
      rw [List.filter_cons_of_pos (by simp [hx])]

lemma filter_insertRec_neg (p : Record → Bool) (x : Record) (l : List Record)
    (hx : p x = false) :
    (insertRec x l).filter p = l.filter p := by
  induction l with
  | nil => simp [insertRec, hx]
  | cons y ys ih =>
    unfold insertRec
    by_cases hp : precStrict y x
    · rw [if_pos hp]
      cases hpy : p y
      · rw [List.filter_cons_of_neg (by simp [hpy]), List.filter_cons_of_neg (by simp [hpy])]
        exact ih
      · rw [List.filter_cons_of_pos (by simp [hpy]), List.filter_cons_of_pos (by simp [hpy]), ih]
    · rw [if_neg hp]
      rw [List.filter_cons_of_neg (by simp [hx])]

lemma sortReport_stable (l : List Record) (s : ℕ) (u : ℚ) :
    (sortReport l).filter (sameKey s u) = l.filter (sameKey s u) := by
  induction l with
  | nil => rfl
  | cons x xs ih =>
    have hsort : sortReport (x :: xs) = insertRec x (sortReport xs) := rfl
    rw [hsort]
    cases hx : sameKey s u x
    · rw [filter_insertRec_neg _ _ _ hx, ih, List.filter_cons_of_neg (by simp [hx])]
    · have hxk : x.score = s ∧ x.upside = u := by simpa [sameKey] using hx
      rw [filter_insertRec_pos _ _ _ hx ?_, ih, List.filter_cons_of_pos (by simp [hx])]
      intro z hz hpz
      have hzk : z.score = s ∧ z.upside = u := by simpa [sameKey] using hpz
      unfold precStrict
      rw [hzk.1, hxk.1, hzk.2, hxk.2]
      simp

lemma analyzeBody_ok_shape {t : String} {i : Info} {r : Record}
    (h : analyzeBody t i = Except.ok (Option.some r)) :
    i.regularMarketPrice ≠ Option.none ∧
    ∃ e cp, eps i = PyVal.num e ∧ current_price i = PyVal.num cp := by
  by_cases hm : i.regularMarketPrice = Option.none
  · simp [analyzeBody, hm] at h
  · refine ⟨hm, ?_⟩
    cases he : eps i with
    | none => simp [analyzeBody, if_neg hm, he] at h
    | num e =>
      cases hcp : current_price i with
      | none => simp [analyzeBody, if_neg hm, he, hcp] at h
      | num cp => exact ⟨e, cp, rfl, rfl⟩

lemma analyzeBody_ok_elim {t : String} {i : Info} {r : Record} {e cp : ℚ}
    (he : eps i = PyVal.num e) (hcp : current_price i = PyVal.num cp)
    (h : analyzeBody t i = Except.ok (Option.some r)) :
    r = { symbol := t.replace ".NS" ""
          price := pyRound cp 2
          intrinsicValue := pyRound (intrinsic_value e (capped_growth i)) 2
          upside := if cp = 0 then 0
            else pyRound ((intrinsic_value e (capped_growth i) - cp) / cp * 100) 1
          score := scoreOf cp (intrinsic_value e (capped_growth i)) (roe i)
            (debt_to_equity i) (op_margin i)
          recommendation := recommendationOf (scoreOf cp
            (intrinsic_value e (capped_growth i)) (roe i) (debt_to_equity i) (op_margin i))
          roePct := pyRound (roe i) 1
          debtEq := pyRound (debt_to_equity i) 2
          opMarginPct := pyRound (op_margin i) 1 } := by
  by_cases hm : i.regularMarketPrice = Option.none
  · simp [analyzeBody, hm] at h
  · simp only [analyzeBody, if_neg hm, he, hcp, Except.ok.injEq, Option.some.injEq] at h
    exact h.symm

lemma recommendation_eq_of_ok {t : String} {i : Info} {r : Record}
    (h : analyzeBody t i = Except.ok (Option.some r)) :
    r.recommendation = recommendationOf r.score := by
  obtain ⟨hm, e, cp, he, hcp⟩ := analyzeBody_ok_shape h
  rw [analyzeBody_ok_elim he hcp h]

lemma scoreOf_eq_count (cp iv rr d m : ℚ) :
    scoreOf cp iv rr d m =
      List.count true [decide (is_cheap cp iv), decide (is_efficient rr),
        decide (is_safe d), decide (is_moat m)] ∧
    scoreOf cp iv rr d m ≤ 4 := by
  unfold scoreOf
  by_cases h1 : is_cheap cp iv <;> by_cases h2 : is_efficient rr <;>
    by_cases h3 : is_safe d <;> by_cases h4 : is_moat m <;>
    simp [h1, h2, h3, h4, List.count_cons]

/-- Claim C1, counterexample: when the earnings-growth field is present with
the value 0, the normalized growth estimate is the 5.0 default, not 0. -/
theorem growth_zero_is_defaulted_cex :
    infoG0.earningsGrowth = Option.some (PyVal.num 0) ∧
    growth_estimate infoG0 = 5 ∧ growth_estimate infoG0 ≠ 0 := by
  refine ⟨rfl, ?_, ?_⟩ <;> norm_num [growth_estimate, orQ, pyOr, PyVal.truthy, infoG0]

/-- Claim C1 (amended): the 5.0 growth default applies whenever the raw
earnings-growth field is falsy, that is missing, null, or exactly 0; a
present nonzero value q gives q times 100. -/
theorem growth_default_on_falsy : ∀ info : Info,
    ((info.earningsGrowth = Option.none ∨ info.earningsGrowth = Option.some PyVal.none ∨
      info.earningsGrowth = Option.some (PyVal.num 0)) → growth_estimate info = 5) ∧
    ∀ q : ℚ, q ≠ 0 → info.earningsGrowth = Option.some (PyVal.num q) →
      growth_estimate info = q * 100 := by
  intro info
  constructor
  · rintro (h | h | h) <;> norm_num [growth_estimate, orQ, pyOr, PyVal.truthy, h]
  · intro q hq h
    norm_num [growth_estimate, orQ, pyOr, PyVal.truthy, h, hq]

/-- Claim C1 witness: the amended rule applied at the concrete mapping whose
growth field is a present 0. -/
theorem growth_default_on_falsy_witness : growth_estimate infoG0 = 5 :=
  (growth_default_on_falsy infoG0).1 (Or.inr (Or.inr rfl))

/-- Claim C2: for every collected sequence of records, the report is a
permutation of it, sorted by score descending then upside descending, and
stable: records with equal sort keys keep their original scan order. -/
theorem report_sorted_and_stable :
    ∀ (fetch : String → Except PyErr Info) (tickers : List String),
    List.Pairwise keyLE (report fetch tickers) ∧
    List.Perm (report fetch tickers) (scanResults fetch tickers) ∧
    ∀ (s : ℕ) (u : ℚ),
      (report fetch tickers).filter (sameKey s u) =
        (scanResults fetch tickers).filter (sameKey s u) := by
  intro fetch tickers
  exact ⟨sortReport_pairwise _, sortReport_perm _, fun s u => sortReport_stable _ s u⟩

/-- Claim C3, counterexample: a present-but-null trailing-EPS field leaves
eps as None, the body of analyze_stock raises a TypeError at the eps
comparison, and the symbol is dropped, so normalization is not total. -/
theorem normalize_not_total_cex :
    infoNullEps.trailingEps = Option.some PyVal.none ∧
    eps infoNullEps = PyVal.none ∧
    analyzeBody "X" infoNullEps = Except.error PyErr.typeError ∧
    analyze_stock (fun _ => Except.ok infoNullEps) "X" = Option.none := by
  refine ⟨rfl, rfl, analyzeBody_infoNullEps, ?_⟩
  simp [analyze_stock, analyzeBody_infoNullEps]

/-- Claim C3 (amended): analysis succeeds whenever the price field is
present, the trailing-EPS field is absent or numeric, and the extracted
current price is a number; a present-but-null trailing-EPS instead raises
and the symbol is skipped. -/
theorem normalize_total_amended : ∀ (t : String) (info : Info),
    info.regularMarketPrice ≠ Option.none →
    (info.trailingEps = Option.none ∨ ∃ q, info.trailingEps = Option.some (PyVal.num q)) →
    (∃ p, current_price info = PyVal.num p) →
    ∃ r, analyzeBody t info = Except.ok (Option.some r) := by
  rintro t info hm heps ⟨p, hp⟩
  have he : ∃ e, eps info = PyVal.num e := by
    rcases heps with h | ⟨q, h⟩
    · exact ⟨0, by simp [eps, h]⟩
    · exact ⟨q, by simp [eps, h]⟩
  obtain ⟨e, he⟩ := he
  refine ⟨{ symbol := t.replace ".NS" ""
            price := pyRound p 2
            intrinsicValue := pyRound (intrinsic_value e (capped_growth info)) 2
            upside := if p = 0 then 0
              else pyRound ((intrinsic_value e (capped_growth info) - p) / p * 100) 1
            score := scoreOf p (intrinsic_value e (capped_growth info)) (roe info)
              (debt_to_equity info) (op_margin info)
            recommendation := recommendationOf (scoreOf p
              (intrinsic_value e (capped_growth info)) (roe info) (debt_to_equity info)
              (op_margin info))
            roePct := pyRound (roe info) 1
            debtEq := pyRound (debt_to_equity info) 2
            opMarginPct := pyRound (op_margin info) 1 }, ?_⟩
  simp only [analyzeBody, if_neg hm, he, hp]

/-- Claim C3 witness: the amended totality applied at the minimal mapping. -/
theorem normalize_total_amended_witness :
    ∃ r, analyzeBody "X" infoA = Except.ok (Option.some r) :=
  normalize_total_amended "X" infoA (by simp [infoA]) (Or.inl rfl) ⟨10, rfl⟩

/-- Claim C4, counterexample: a present current-price field with value 0 is
overridden by the regular-market-price fallback, 7 here, not kept as 0. -/
theorem current_price_zero_fallback_cex :
    infoCP0.currentPrice = Option.some (PyVal.num 0) ∧
    current_price infoCP0 = PyVal.num 7 := by
  refine ⟨rfl, ?_⟩
  norm_num [current_price, pyOr, PyVal.truthy, infoCP0]

/-- Claim C4 (amended): normalized currentPrice keeps the raw current-price
field only when it is present, non-null and nonzero; when it is absent,
null, or exactly 0 the regular-market-price field is taken verbatim, with
0 when that one is absent. -/
theorem current_price_amended : ∀ info : Info,
    (∀ q : ℚ, q ≠ 0 → info.currentPrice = Option.some (PyVal.num q) →
      current_price info = PyVal.num q) ∧
    ((info.currentPrice = Option.none ∨ info.currentPrice = Option.some PyVal.none ∨
      info.currentPrice = Option.some (PyVal.num 0)) →
      current_price info = info.regularMarketPrice.getD (PyVal.num 0)) := by
  intro info
  constructor
  · intro q hq h
    simp [current_price, pyOr, PyVal.truthy, h, hq]
  · rintro (h | h | h) <;> simp [current_price, pyOr, PyVal.truthy, h]

/-- Claim C4 witness: the amended fallback rule applied at the concrete
mapping whose current-price field is a present 0. -/
theorem current_price_amended_witness :
    current_price infoCP0 = infoCP0.regularMarketPrice.getD (PyVal.num 0) :=
  (current_price_amended infoCP0).2 (Or.inr (Or.inr rfl))

/-- Claim C5: every produced record has a score of at most 4 that equals the
number of the four criterion predicates holding on the normalized inputs. -/
theorem score_counts_criteria : ∀ (t : String) (i : Info) (r : Record) (e cp : ℚ),
    eps i = PyVal.num e → current_price i = PyVal.num cp →
    analyzeBody t i = Except.ok (Option.some r) →
    r.score = List.count true
      [decide (is_cheap cp (intrinsic_value e (capped_growth i))),
       decide (is_efficient (roe i)), decide (is_safe (debt_to_equity i)),
       decide (is_moat (op_margin i))] ∧
    r.score ≤ 4 := by
  intro t i r e cp he hcp h
  rw [analyzeBody_ok_elim he hcp h]
  exact scoreOf_eq_count cp (intrinsic_value e (capped_growth i)) (roe i)
    (debt_to_equity i) (op_margin i)

/-- Claim C5 witness: the score-count identity at the concrete mapping infoA. -/
theorem score_counts_criteria_witness :
    recA.score = List.count true
      [decide (is_cheap 10 (intrinsic_value 0 (capped_growth infoA))),
       decide (is_efficient (roe infoA)), decide (is_safe (debt_to_equity infoA)),
       decide (is_moat (op_margin infoA))] ∧
    recA.score ≤ 4 :=
  score_counts_criteria "X" infoA recA 0 10 eps_infoA cp_infoA analyzeBody_infoA

/-- Claim C6: with eps at most 0, the intrinsic value is 0 and the
margin-of-safety criterion fails, for every price and growth. -/
theorem nonpos_eps_zero_iv : ∀ e g cp : ℚ, e ≤ 0 →
    intrinsic_value e g = 0 ∧ ¬ is_cheap cp (intrinsic_value e g) := by
  intro e g cp he
  have h0 : intrinsic_value e g = 0 := by
    rw [intrinsic_value, if_neg (not_lt.mpr he)]
  refine ⟨h0, ?_⟩
  rw [h0]
  rintro ⟨-, h2⟩
  exact lt_irrefl 0 h2

/-- Claim C6 witness: the degenerate valuation at eps -5, growth 3, price 7. -/
theorem nonpos_eps_zero_iv_witness :
    intrinsic_value (-5) 3 = 0 ∧ ¬ is_cheap 7 (intrinsic_value (-5) 3) :=
  nonpos_eps_zero_iv (-5) 3 7 (by norm_num)

/-- Claim C7: the recommendation of a produced record is a function of its
score alone, and follows the fixed mapping 4 StrongBuy, 3 Buy, 2 Watch,
1 or 0 Avoid. -/
theorem recommendation_depends_only_on_score :
    (∀ (t1 : String) (i1 : Info) (r1 : Record) (t2 : String) (i2 : Info) (r2 : Record),
      analyzeBody t1 i1 = Except.ok (Option.some r1) →
      analyzeBody t2 i2 = Except.ok (Option.some r2) →
      r1.score = r2.score → r1.recommendation = r2.recommendation) ∧
    recommendationOf 4 = "Strong Buy" ∧ recommendationOf 3 = "Buy" ∧
    recommendationOf 2 = "Watch" ∧ recommendationOf 1 = "Avoid" ∧
    recommendationOf 0 = "Avoid" := by
  constructor
  · intro t1 i1 r1 t2 i2 r2 h1 h2 hs
    rw [recommendation_eq_of_ok h1, recommendation_eq_of_ok h2, hs]
  · exact ⟨rfl, rfl, rfl, rfl, rfl⟩

/-- Claim C7 witness: two different mappings both scoring 1 get the same
label. -/
theorem recommendation_depends_only_on_score_witness :
    recA.recommendation = recB.recommendation :=
  recommendation_depends_only_on_score.1 "X" infoA recA "Y" infoB recB
    analyzeBody_infoA analyzeBody_infoB rfl

/-- Claim C8: a symbol whose fetch fails or whose mapping lacks the price
field contributes nothing to the scan, and the report never has more
entries than the input symbol list. -/
theorem failed_symbols_skipped :
    ∀ (fetch : String → Except PyErr Info) (tickers : List String),
    (report fetch tickers).length ≤ tickers.length ∧
    ∀ (t : String) (rest : List String),
      ((∃ err, fetch t = Except.error err) ∨
        (∃ i, fetch t = Except.ok i ∧ i.regularMarketPrice = Option.none)) →
      scanResults fetch (t :: rest) = scanResults fetch rest := by
  intro fetch tickers
  constructor
  · unfold report
    rw [(sortReport_perm (scanResults fetch tickers)).length_eq]
    exact List.length_filterMap_le _ _
  · rintro t rest (⟨err, herr⟩ | ⟨i, hi, hnone⟩)
    · simp [scanResults, List.filterMap_cons, analyze_stock, herr]
    · simp [scanResults, List.filterMap_cons, analyze_stock, hi, analyzeBody, hnone]

/-- Claim C8 witness: a one-symbol batch whose fetch fails yields the same
scan results as the empty batch. -/
theorem failed_symbols_skipped_witness :
    scanResults (fun _ => Except.error PyErr.providerError) ["A"] =
      scanResults (fun _ => Except.error PyErr.providerError) [] :=
  (failed_symbols_skipped (fun _ => Except.error PyErr.providerError) ["A"]).2 "A" []
    (Or.inl ⟨PyErr.providerError, rfl⟩)

/-- Claim C9: every numeric field of a produced record is the rounded value
of the corresponding exact quantity: price and intrinsic value to 2 places,
upside, ROE and operating margin to 1 place, debt-to-equity to 2 places. -/
theorem report_fields_rounded : ∀ (t : String) (i : Info) (r : Record) (e cp : ℚ),
    eps i = PyVal.num e → current_price i = PyVal.num cp →
    analyzeBody t i = Except.ok (Option.some r) →
    r.price = pyRound cp 2 ∧
    r.intrinsicValue = pyRound (intrinsic_value e (capped_growth i)) 2 ∧
    (cp ≠ 0 →
      r.upside = pyRound ((intrinsic_value e (capped_growth i) - cp) / cp * 100) 1) ∧
    r.roePct = pyRound (roe i) 1 ∧
    r.debtEq = pyRound (debt_to_equity i) 2 ∧
    r.opMarginPct = pyRound (op_margin i) 1 := by
  intro t i r e cp he hcp h
  rw [analyzeBody_ok_elim he hcp h]
  refine ⟨rfl, rfl, ?_, rfl, rfl, rfl⟩
  intro hcp0
  simp only [if_neg hcp0]

/-- Claim C9 witness: the rounded price and upside of the record produced
for infoA. -/
theorem report_fields_rounded_witness :
    recA.price = pyRound 10 2 ∧
    recA.upside = pyRound ((intrinsic_value 0 (capped_growth infoA) - 10) / 10 * 100) 1 := by
  have h := report_fields_rounded "X" infoA recA 0 10 eps_infoA cp_infoA analyzeBody_infoA
  exact ⟨h.1, h.2.2.1 (by norm_num)⟩

/-- Claim C10: any exception during fetch or during the per-symbol body is
absorbed: analyze_stock returns None and the batch over the remaining
symbols is unchanged. -/
theorem per_symbol_errors_absorbed :
    ∀ (fetch : String → Except PyErr Info) (t : String),
    ((∃ err, fetch t = Except.error err) ∨
      (∃ i err, fetch t = Except.ok i ∧ analyzeBody t i = Except.error err)) →
    analyze_stock fetch t = Option.none ∧
    ∀ rest : List String, scanResults fetch (t :: rest) = scanResults fetch rest := by
  intro fetch t h
  have hnone : analyze_stock fetch t = Option.none := by
    rcases h with ⟨err, herr⟩ | ⟨i, err, hi, hb⟩
    · simp [analyze_stock, herr]
    · simp [analyze_stock, hi, hb]
  exact ⟨hnone, fun rest => by simp [scanResults, List.filterMap_cons, hnone]⟩

/-- Claim C10 witness: the mapping with a null trailing EPS raises inside
the body and the symbol yields no result. -/
theorem per_symbol_errors_absorbed_witness :
    analyze_stock (fun _ => Except.ok infoNullEps) "X" = Option.none :=
  (per_symbol_errors_absorbed (fun _ => Except.ok infoNullEps) "X"
    (Or.inr ⟨infoNullEps, PyErr.typeError, rfl, analyzeBody_infoNullEps⟩)).1

end BuffettScanner
